import Mathlib

/-!
# Verification of `doReduce` (src/src/mapreduce/common_reduce.go)

Shallow embedding of the reduce-task executor `doReduce`.  A reduce task
opens the `nMap` intermediate shard files, decodes each shard until the
first decode error, groups values by key (a Go `map[string][]string`,
appending in scan order), extracts the distinct keys, sorts them with
`sort.Strings`, opens the output path with `O_CREATE|O_APPEND|O_WRONLY`,
and appends one record `KeyValue{key, reduceF(key, kvs[key])}` per sorted
key.  Any shard-open failure or output-open failure panics (fatal, no
retry, output path untouched).

Modelling choices:
* A shard file is a list of decode outcomes: each `.ok kv` is a record
  the JSON decoder yields, `.err` is a decode failure (corruption or
  truncation); a clean end of stream is simply the end of the list.
* The Go map is embedded as an association list with unique keys in
  first-insertion order (`insertKV` mirrors
  `kvs[kv.Key] = append(kvs[kv.Key], kv.Value)`).
* Go map iteration order (`for k := range kvs`) is unspecified; the
  general entry point `doReduceWithKeyOrder` takes the iteration order as
  an explicit parameter, and `doReduce` instantiates it with the
  canonical first-insertion order.  Determinism claims quantify over all
  permutations.
* `sort.Strings` compares byte-wise; for UTF-8 data byte-wise order
  coincides with code-point order, which is Lean's `String` order, so
  `sortStrings` uses `List.insertionSort (· ≤ ·)` (extensionally equal to
  any sorting algorithm on `String`).
* The filesystem state visible to one invocation is the shard files
  (`none` = cannot be opened), the current output-path content
  (`none` = absent) and whether opening the output path succeeds.
-/

/-- A key/value record, as in Go `type KeyValue struct { Key, Value string }`. -/
structure KeyValue where
  key : String
  value : String
deriving DecidableEq, Repr

/-- One decoder step on a shard file: a decoded record, or a decode error
(corrupted or truncated data).  Clean end-of-stream is the end of the list. -/
inductive DecodeItem where
  | ok (kv : KeyValue)
  | err
deriving DecidableEq, Repr

/-- The byte content of one intermediate shard file, as the sequence of
outcomes repeated `.Decode(&kv)` calls would produce. -/
abbrev ShardFile := List DecodeItem

/-- The inner decode loop of `doReduce`: `for { err := decoders[i].Decode(&kv);
if err != nil { break }; ... }` — keep records until the first failure. -/
def readShard : ShardFile → List KeyValue
  | [] => []
  | .ok kv :: rest => kv :: readShard rest
  | .err :: _ => []

/-- The Go `map[string][]string`, embedded as an association list whose keys
are unique and listed in first-insertion order. -/
abbrev KvMap := List (String × List String)

/-- One step `kvs[kv.Key] = append(kvs[kv.Key], kv.Value)` of the grouping
loop: append `v` to the entry of `k`, creating the entry if absent. -/
def insertKV : KvMap → String → String → KvMap
  | [], k, v => [(k, [v])]
  | (k₀, vs) :: rest, k, v =>
      if k₀ = k then (k₀, vs ++ [v]) :: rest
      else (k₀, vs) :: insertKV rest k v

/-- The grouping loop of `doReduce` over the concatenated record stream
(shards scanned in ascending map-task index order). -/
def buildKvs (records : List KeyValue) : KvMap :=
  records.foldl (fun m kv => insertKV m kv.key kv.value) []

/-- Go map read `kvs[key]` (empty slice when absent). -/
def lookupVals : KvMap → String → List String
  | [], _ => []
  | (k₀, vs) :: rest, k => if k₀ = k then vs else lookupVals rest k

/-- The key set of the map, in first-insertion order (one possible iteration
order of `for k := range kvs`). -/
def mapKeys (m : KvMap) : List String := m.map Prod.fst

/-- Byte-wise (code-point) lexicographic `≤` on character lists, written as a
structurally recursive boolean so that it evaluates inside the kernel. -/
def charListLeb : List Char → List Char → Bool
  | [], _ => true
  | _ :: _, [] => false
  | a :: as, b :: bs =>
      if a < b then true else if b < a then false else charListLeb as bs

/-- Go's byte-wise string comparison `a <= b`; on UTF-8 data, byte-wise order
coincides with code-point lexicographic order on the decoded characters. -/
def strLeb (a b : String) : Bool :=
  charListLeb a.data b.data

/-- `sort.Strings(keys)`: sort ascending by byte-wise string comparison. -/
def sortStrings (ks : List String) : List String :=
  List.insertionSort (fun a b => strLeb a b = true) ks

/-- The filesystem state one `doReduce` invocation can observe and affect:
the shard files of this reduce task indexed by map-task number (`none` when
the file cannot be opened), the current content of the output path (`none`
when the file does not exist), and whether opening the output path succeeds. -/
structure FileSystem where
  shards : List (Option ShardFile)
  outFile : Option (List KeyValue)
  outOpenOk : Bool

/-- Outcome of one invocation: whether it panicked (`fatal`), and the state
of the output path afterwards. -/
structure RunResult where
  fatal : Bool
  outFile : Option (List KeyValue)
deriving DecidableEq, Repr

/-- All records of all shards, in ascending shard-index order, each shard
decoded until its first decode failure. -/
def allRecords (fs : FileSystem) : List KeyValue :=
  (fs.shards.map (fun s => readShard (s.getD []))).flatten

/-- `doReduce`, with the Go-map iteration order `ks` passed explicitly
(the `for k := range kvs` order is unspecified in Go).  Faithful to
src/src/mapreduce/common_reduce.go: open every shard (any failure is
fatal before anything else happens), decode and group, collect and sort
the keys, open the output path in create/append/write-only mode (failure
fatal, path untouched), then append one reduced record per sorted key. -/
def doReduceWithKeyOrder (fs : FileSystem)
    (reduceF : String → List String → String) (ks : List String) : RunResult :=
  if fs.shards.all Option.isSome then
    if fs.outOpenOk then
      let kvs := buildKvs (allRecords fs)
      { fatal := false
        outFile := some (fs.outFile.getD [] ++
          (sortStrings ks).map (fun k => ⟨k, reduceF k (lookupVals kvs k)⟩)) }
    else { fatal := true, outFile := fs.outFile }
  else { fatal := true, outFile := fs.outFile }

/-- `doReduce` with the canonical iteration order (first-insertion order). -/
def doReduce (fs : FileSystem) (reduceF : String → List String → String) :
    RunResult :=
  doReduceWithKeyOrder fs reduceF (mapKeys (buildKvs (allRecords fs)))

/-- The sequence of records a successful invocation appends to the output
file (the loop `for _, key := range keys { encoder.Encode(KeyValue{key,
reduceF(key, kvs[key])}) }`). -/
def emittedRecords (fs : FileSystem)
    (reduceF : String → List String → String) : List KeyValue :=
  let kvs := buildKvs (allRecords fs)
  (sortStrings (mapKeys kvs)).map (fun k => ⟨k, reduceF k (lookupVals kvs k)⟩)

/-- A filesystem whose shards all open and decode cleanly, with output
content `out` and a working output path. -/
def cleanFS (shards : List (List KeyValue)) (out : Option (List KeyValue)) :
    FileSystem :=
  { shards := shards.map (fun rs => some (rs.map DecodeItem.ok))
    outFile := out
    outOpenOk := true }

/-- Modelled from the spec: "Record encoding: a self-describing, streamable
text encoding of `(key, value)` pairs" — the JSON line the encoder writes for
one record.  The `encoding/json` package is external to src/; any fixed
injective per-record encoding represents it. -/
def encodeRecord (kv : KeyValue) : String :=
  "\x7b\"Key\":\"" ++ kv.key ++ "\",\"Value\":\"" ++ kv.value ++ "\"\x7d\n"

/-- The byte content of an output file holding the record sequence `rs`. -/
def serialize (rs : List KeyValue) : String :=
  String.join (rs.map encodeRecord)

/-- Modelled from the spec: Scenario A's "reduce = sum-as-text" reduce
function — parse each value as a natural number, sum, render as text. -/
def digitsToNat (cs : List Char) : Nat :=
  cs.foldl (fun n c => n * 10 + (c.toNat - Char.toNat (Char.ofNat 48))) 0

def sumAsText (_k : String) (vs : List String) : String :=
  toString (vs.foldl (fun acc v => acc + digitsToNat v.data) 0)

/-! ## The computable comparison agrees with the `String` order -/

theorem charListLeb_iff (as bs : List Char) :
    charListLeb as bs = true ↔ ¬ List.Lex (· < ·) bs as := by
  induction as generalizing bs with
  | nil =>
      refine iff_of_true rfl (fun h => ?_)
      exact List.Lex.not_nil_right _ _ h
  | cons a as ih =>
      cases bs with
      | nil =>
          refine iff_of_false (by simp [charListLeb]) (fun h => h List.Lex.nil)
      | cons b bs =>
          show (if a < b then true else if b < a then false else charListLeb as bs)
              = true ↔ _
          split_ifs with h₁ h₂
          · refine iff_of_true rfl (fun h => ?_)
            cases h with
            | cons htl => exact absurd h₁ (lt_irrefl _)
            | rel hba => exact absurd h₁ (asymm hba)
          · refine iff_of_false (by simp) (fun h => h (List.Lex.rel h₂))
          · have hab : a = b := le_antisymm (not_lt.mp h₂) (not_lt.mp h₁)
            subst hab
            exact (ih bs).trans (not_congr List.Lex.cons_iff.symm)

theorem strLeb_iff (a b : String) : strLeb a b = true ↔ a ≤ b := by
  rw [← not_lt, String.lt_iff_toList_lt]
  exact charListLeb_iff a.data b.data

theorem strLe_total : ∀ a b : String, strLeb a b = true ∨ strLeb b a = true := by
  intro a b
  rcases le_total a b with h | h
  · exact Or.inl ((strLeb_iff a b).mpr h)
  · exact Or.inr ((strLeb_iff b a).mpr h)

instance : IsTotal String (fun a b => strLeb a b = true) := ⟨strLe_total⟩

instance : IsTrans String (fun a b => strLeb a b = true) :=
  ⟨fun a b c hab hbc => (strLeb_iff a c).mpr
    (le_trans ((strLeb_iff a b).mp hab) ((strLeb_iff b c).mp hbc))⟩

instance : IsAntisymm String (fun a b => strLeb a b = true) :=
  ⟨fun a b hab hba => le_antisymm ((strLeb_iff a b).mp hab) ((strLeb_iff b a).mp hba)⟩

/-! ## Reading shards -/

theorem readShard_ok (rs : List KeyValue) :
    readShard (rs.map DecodeItem.ok) = rs := by
  induction rs with
  | nil => rfl
  | cons kv rest ih => simp [readShard, ih]

theorem readShard_truncated (gs : List KeyValue) (rest : ShardFile) :
    readShard (gs.map DecodeItem.ok ++ DecodeItem.err :: rest) = gs := by
  induction gs with
  | nil => rfl
  | cons kv g ih => simp [readShard, ih]

theorem allRecords_cleanFS (shards : List (List KeyValue))
    (out : Option (List KeyValue)) :
    allRecords (cleanFS shards out) = shards.flatten := by
  simp [allRecords, cleanFS, List.map_map, Function.comp_def, readShard_ok]

/-! ## The grouping map -/

theorem lookupVals_insertKV (m : KvMap) (k v k' : String) :
    lookupVals (insertKV m k v) k' =
      lookupVals m k' ++ (if k = k' then [v] else []) := by
  induction m with
  | nil =>
      by_cases h : k = k' <;> simp [insertKV, lookupVals, h]
  | cons p m ih =>
      obtain ⟨k₀, vs⟩ := p
      by_cases h : k₀ = k
      · subst h
        by_cases h' : k₀ = k' <;> simp [insertKV, lookupVals, h']
      · have h₂ : ¬ k = k₀ := fun e => h e.symm
        by_cases h' : k₀ = k'
        · subst h'
          simp [insertKV, lookupVals, h, h₂]
        · simp [insertKV, lookupVals, h, h', ih]

theorem mapKeys_insertKV (m : KvMap) (k v : String) :
    mapKeys (insertKV m k v) =
      if k ∈ mapKeys m then mapKeys m else mapKeys m ++ [k] := by
  induction m with
  | nil => simp [insertKV, mapKeys]
  | cons p m ih =>
      obtain ⟨k₀, vs⟩ := p
      by_cases h : k₀ = k
      · subst h
        simp [insertKV, mapKeys]
      · have hne : ¬ k = k₀ := fun hk => h hk.symm
        have e₁ : mapKeys ((k₀, vs) :: insertKV m k v)
            = k₀ :: mapKeys (insertKV m k v) := rfl
        have e₂ : mapKeys ((k₀, vs) :: m) = k₀ :: mapKeys m := rfl
        have e₃ : insertKV ((k₀, vs) :: m) k v = (k₀, vs) :: insertKV m k v := by
          simp [insertKV, h]
        rw [e₃, e₁, e₂, ih]
        by_cases hm : k ∈ mapKeys m
        · rw [if_pos hm, if_pos (List.mem_cons_of_mem _ hm)]
        · rw [if_neg hm, if_neg (by simp [hne, hm]), List.cons_append]

theorem mem_mapKeys_insertKV (m : KvMap) (k v k' : String) :
    k' ∈ mapKeys (insertKV m k v) ↔ k' ∈ mapKeys m ∨ k' = k := by
  rw [mapKeys_insertKV]
  split_ifs with hk
  · exact ⟨Or.inl, fun h => h.elim id (fun e => e ▸ hk)⟩
  · simp

theorem nodup_mapKeys_insertKV (m : KvMap) (k v : String)
    (h : (mapKeys m).Nodup) : (mapKeys (insertKV m k v)).Nodup := by
  rw [mapKeys_insertKV]
  split_ifs with hk
  · exact h
  · simp [List.nodup_append, h, hk]

theorem lookupVals_buildKvs_aux (records : List KeyValue) (m : KvMap)
    (k : String) :
    lookupVals (records.foldl (fun m kv => insertKV m kv.key kv.value) m) k =
      lookupVals m k ++
        (records.filter (fun kv => kv.key = k)).map (fun kv => kv.value) := by
  induction records generalizing m with
  | nil => simp
  | cons kv rest ih =>
      rw [List.foldl_cons, ih, lookupVals_insertKV, List.filter_cons]
      by_cases h : kv.key = k <;> simp [h]

theorem lookupVals_buildKvs (records : List KeyValue) (k : String) :
    lookupVals (buildKvs records) k =
      (records.filter (fun kv => kv.key = k)).map (fun kv => kv.value) := by
  simpa [lookupVals] using lookupVals_buildKvs_aux records [] k

theorem mem_mapKeys_buildKvs_aux (records : List KeyValue) (m : KvMap)
    (k : String) :
    k ∈ mapKeys (records.foldl (fun m kv => insertKV m kv.key kv.value) m) ↔
      k ∈ mapKeys m ∨ k ∈ records.map (fun kv => kv.key) := by
  induction records generalizing m with
  | nil => simp
  | cons kv rest ih =>
      rw [List.foldl_cons, ih]
      simp [mem_mapKeys_insertKV]
      tauto

theorem mem_mapKeys_buildKvs (records : List KeyValue) (k : String) :
    k ∈ mapKeys (buildKvs records) ↔ k ∈ records.map (fun kv => kv.key) := by
  simpa [mapKeys] using mem_mapKeys_buildKvs_aux records [] k

theorem nodup_mapKeys_buildKvs_aux (records : List KeyValue) (m : KvMap)
    (h : (mapKeys m).Nodup) :
    (mapKeys (records.foldl (fun m kv => insertKV m kv.key kv.value) m)).Nodup := by
  induction records generalizing m with
  | nil => exact h
  | cons kv rest ih =>
      rw [List.foldl_cons]
      exact ih _ (nodup_mapKeys_insertKV _ _ _ h)

theorem nodup_mapKeys_buildKvs (records : List KeyValue) :
    (mapKeys (buildKvs records)).Nodup :=
  nodup_mapKeys_buildKvs_aux records [] (by simp [mapKeys])

/-! ## Sorting -/

theorem sortStrings_perm (ks : List String) : (sortStrings ks).Perm ks :=
  List.perm_insertionSort _ _

theorem sortStrings_sorted (ks : List String) :
    List.Sorted (fun a b => strLeb a b = true) (sortStrings ks) :=
  List.sorted_insertionSort _ _

theorem sortStrings_eq_of_perm {ks₁ ks₂ : List String} (h : ks₁.Perm ks₂) :
    sortStrings ks₁ = sortStrings ks₂ :=
  List.eq_of_perm_of_sorted
    ((sortStrings_perm ks₁).trans (h.trans (sortStrings_perm ks₂).symm))
    (sortStrings_sorted ks₁) (sortStrings_sorted ks₂)

theorem sortStrings_sorted_lt (ks : List String) (h : ks.Nodup) :
    List.Sorted (fun a b : String => a < b) (sortStrings ks) := by
  have hs := sortStrings_sorted ks
  have hn : (sortStrings ks).Nodup := ((sortStrings_perm ks).nodup_iff).mpr h
  exact (hs.and hn).imp
    (fun hp => lt_of_le_of_ne ((strLeb_iff _ _).mp hp.1) hp.2)

/-! ## Behaviour of `doReduce` on the three control paths -/

theorem doReduce_success (fs : FileSystem) (f : String → List String → String)
    (hs : fs.shards.all Option.isSome = true) (ho : fs.outOpenOk = true) :
    doReduce fs f =
      { fatal := false
        outFile := some (fs.outFile.getD [] ++ emittedRecords fs f) } := by
  simp [doReduce, doReduceWithKeyOrder, emittedRecords, hs, ho]

theorem doReduce_shardFail (fs : FileSystem) (f : String → List String → String)
    (hs : fs.shards.all Option.isSome = false) :
    doReduce fs f = { fatal := true, outFile := fs.outFile } := by
  simp [doReduce, doReduceWithKeyOrder, hs]

theorem doReduce_outFail (fs : FileSystem) (f : String → List String → String)
    (ho : fs.outOpenOk = false) :
    doReduce fs f = { fatal := true, outFile := fs.outFile } := by
  by_cases hs : fs.shards.all Option.isSome <;>
    simp [doReduce, doReduceWithKeyOrder, hs, ho]

theorem cleanFS_all_isSome (shards : List (List KeyValue))
    (out : Option (List KeyValue)) :
    (cleanFS shards out).shards.all Option.isSome = true := by
  simp [cleanFS, List.all_eq_true]

theorem emittedRecords_map_key (fs : FileSystem)
    (f : String → List String → String) :
    (emittedRecords fs f).map (fun kv => kv.key) =
      sortStrings (mapKeys (buildKvs (allRecords fs))) := by
  simp [emittedRecords, List.map_map, Function.comp_def]

theorem filter_key_map_of_nodup (ks : List String)
    (g : String → KeyValue) (hg : ∀ x, (g x).key = x) (k : String) :
    ks.Nodup → k ∈ ks →
      (ks.map g).filter (fun kv => kv.key = k) = [g k] := by
  induction ks with
  | nil => intro _ hk; cases hk
  | cons a ks ih =>
      intro hn hk
      rw [List.map_cons, List.filter_cons]
      by_cases h : a = k
      · subst h
        have hout : ∀ kv ∈ ks.map g, ¬ (kv.key = a) := by
          intro kv hkv
          obtain ⟨x, hx, rfl⟩ := List.mem_map.mp hkv
          rw [hg x]
          exact fun e => (List.nodup_cons.mp hn).1 (e ▸ hx)
        have hnil : List.filter (fun kv => decide (kv.key = a)) (List.map g ks)
            = [] := List.filter_eq_nil_iff.mpr (by simpa using hout)
        simp [hg a, hnil]
      · have hk' : k ∈ ks := by
          cases List.mem_cons.mp hk with
          | inl e => exact absurd e.symm h
          | inr hin => exact hin
        rw [if_neg (by simp [hg a, h]), ih (List.nodup_cons.mp hn).2 hk']

/-! ## The claims -/

/-- C1: for every `nMap ≥ 0` and every distribution of records across the
`nMap` intermediate shards, the run succeeds and the key set of the output
file written by `doReduce` equals the set of distinct keys occurring in the
union of all shard inputs, with each such key appearing exactly once. -/
theorem C1_output_key_set (shards : List (List KeyValue))
    (f : String → List String → String) :
    (doReduce (cleanFS shards none) f).fatal = false ∧
    ∃ out, (doReduce (cleanFS shards none) f).outFile = some out ∧
      (∀ k, k ∈ out.map (fun kv => kv.key) ↔
        k ∈ shards.flatten.map (fun kv => kv.key)) ∧
      (out.map (fun kv => kv.key)).Nodup := by
  rw [doReduce_success _ f (cleanFS_all_isSome shards none) rfl]
  refine ⟨rfl, emittedRecords (cleanFS shards none) f, by simp [cleanFS], ?_, ?_⟩
  · intro k
    rw [emittedRecords_map_key, (sortStrings_perm _).mem_iff,
      mem_mapKeys_buildKvs, allRecords_cleanFS]
  · rw [emittedRecords_map_key]
    exact ((sortStrings_perm _).nodup_iff).mpr (nodup_mapKeys_buildKvs _)

/-- C2: every key `k` present in the inputs yields exactly one output record
for `k`, whose value is the reduce function applied to the ordered
concatenation of `k`'s occurrences across shards in ascending shard-index
order, preserving within-shard arrival order (so the reduce function is
consulted exactly once per key, on exactly that list). -/
theorem C2_reduce_called_once (shards : List (List KeyValue))
    (f : String → List String → String) (k : String)
    (hk : k ∈ shards.flatten.map (fun kv => kv.key)) :
    ∃ out, (doReduce (cleanFS shards none) f).outFile = some out ∧
      out.filter (fun kv => kv.key = k) =
        [⟨k, f k ((shards.flatten.filter (fun kv => kv.key = k)).map
            (fun kv => kv.value))⟩] := by
  rw [doReduce_success _ f (cleanFS_all_isSome shards none) rfl]
  refine ⟨emittedRecords (cleanFS shards none) f, by simp [cleanFS], ?_⟩
  have hmem : k ∈ sortStrings
      (mapKeys (buildKvs (allRecords (cleanFS shards none)))) := by
    rw [(sortStrings_perm _).mem_iff, mem_mapKeys_buildKvs, allRecords_cleanFS]
    exact hk
  have hnd : (sortStrings
      (mapKeys (buildKvs (allRecords (cleanFS shards none))))).Nodup :=
    ((sortStrings_perm _).nodup_iff).mpr (nodup_mapKeys_buildKvs _)
  show ((sortStrings (mapKeys (buildKvs (allRecords (cleanFS shards none))))).map
      (fun k => (⟨k, f k (lookupVals (buildKvs (allRecords (cleanFS shards none)))
        k)⟩ : KeyValue))).filter (fun kv => kv.key = k) = _
  rw [filter_key_map_of_nodup _ _ (fun _ => rfl) k hnd hmem,
    lookupVals_buildKvs, allRecords_cleanFS]

/-- C3: the record sequence `doReduce` writes to the output file is strictly
ascending by key under lexicographic string comparison (byte-wise on the
UTF-8 encoding), in particular with no duplicate keys. -/
theorem C3_output_strictly_sorted (fs : FileSystem)
    (f : String → List String → String) :
    List.Sorted (fun a b : String => a < b)
      ((emittedRecords fs f).map (fun kv => kv.key)) ∧
    ((emittedRecords fs f).map (fun kv => kv.key)).Nodup := by
  rw [emittedRecords_map_key]
  exact ⟨sortStrings_sorted_lt _ (nodup_mapKeys_buildKvs _),
    ((sortStrings_perm _).nodup_iff).mpr (nodup_mapKeys_buildKvs _)⟩

/-- C4: a decode failure mid-shard (corruption or truncation) terminates that
shard's scanning exactly like a clean end of stream: the whole run on the
corrupted shard equals the run on the shard truncated to its clean prefix —
the records decoded before the failure are kept, no error is surfaced, and
the task completes. -/
theorem C4_decode_failure_is_eof (pre post : List (Option ShardFile))
    (good : List KeyValue) (rest : ShardFile) (out : Option (List KeyValue))
    (f : String → List String → String)
    (hpre : pre.all Option.isSome = true)
    (hpost : post.all Option.isSome = true) :
    doReduce ⟨pre ++ some (good.map DecodeItem.ok ++ DecodeItem.err :: rest)
        :: post, out, true⟩ f
      = doReduce ⟨pre ++ some (good.map DecodeItem.ok) :: post, out, true⟩ f ∧
    (doReduce ⟨pre ++ some (good.map DecodeItem.ok ++ DecodeItem.err :: rest)
        :: post, out, true⟩ f).fatal = false := by
  have hall₁ : (pre ++ some (good.map DecodeItem.ok ++ DecodeItem.err :: rest)
      :: post).all Option.isSome = true := by
    simp only [List.all_append, List.all_cons, Option.isSome_some, Bool.true_and]
    rw [hpre, hpost]; rfl
  have hall₂ : (pre ++ some (good.map DecodeItem.ok) :: post).all
      Option.isSome = true := by
    simp only [List.all_append, List.all_cons, Option.isSome_some, Bool.true_and]
    rw [hpre, hpost]; rfl
  have hrec : allRecords ⟨pre ++ some (good.map DecodeItem.ok
        ++ DecodeItem.err :: rest) :: post, out, true⟩
      = allRecords ⟨pre ++ some (good.map DecodeItem.ok) :: post, out, true⟩ := by
    simp [allRecords, readShard_truncated, readShard_ok]
  constructor
  · rw [doReduce_success _ f hall₁ rfl, doReduce_success _ f hall₂ rfl]
    simp only [emittedRecords, hrec]
  · rw [doReduce_success _ f hall₁ rfl]

/-- C5: the output path is opened in create-if-absent, append, write-only
mode and never truncated, so invoking `doReduce` twice against the same
output path with the same inputs leaves the file containing the emitted
records twice — not a single replaced copy; the operation is not idempotent
whenever it emits at least one record. -/
theorem C5_append_not_idempotent (shards : List (Option ShardFile))
    (f : String → List String → String)
    (hs : shards.all Option.isSome = true) :
    (doReduce ⟨shards, none, true⟩ f).outFile
        = some (emittedRecords ⟨shards, none, true⟩ f) ∧
    (doReduce ⟨shards, (doReduce ⟨shards, none, true⟩ f).outFile, true⟩
        f).outFile
      = some (emittedRecords ⟨shards, none, true⟩ f
          ++ emittedRecords ⟨shards, none, true⟩ f) ∧
    (emittedRecords ⟨shards, none, true⟩ f ≠ [] →
      (doReduce ⟨shards, (doReduce ⟨shards, none, true⟩ f).outFile, true⟩
          f).outFile
        ≠ some (emittedRecords ⟨shards, none, true⟩ f)) := by
  have h₁ : (doReduce ⟨shards, none, true⟩ f).outFile
      = some (emittedRecords ⟨shards, none, true⟩ f) := by
    rw [doReduce_success _ f hs rfl]; simp
  have h₂ : (doReduce ⟨shards, (doReduce ⟨shards, none, true⟩ f).outFile,
      true⟩ f).outFile
      = some (emittedRecords ⟨shards, none, true⟩ f
          ++ emittedRecords ⟨shards, none, true⟩ f) := by
    rw [h₁, doReduce_success _ f hs rfl]
    rfl
  refine ⟨h₁, h₂, fun hne hEq => ?_⟩
  rw [h₂] at hEq
  have hlen := congrArg List.length (Option.some.inj hEq)
  rw [List.length_append] at hlen
  exact hne (List.length_eq_zero.mp (by omega))

/-- C6: if some shard file cannot be opened, `doReduce` aborts fatally before
producing output: the output path is neither created nor modified, and the
result does not depend on the reduce function (it is never invoked). -/
theorem C6_shard_open_failure (fs : FileSystem)
    (f : String → List String → String) (i : Nat) (hi : i < fs.shards.length)
    (h : fs.shards.get ⟨i, hi⟩ = none) :
    (doReduce fs f).fatal = true ∧ (doReduce fs f).outFile = fs.outFile ∧
    ∀ g, doReduce fs g = doReduce fs f := by
  have hall : fs.shards.all Option.isSome = false := by
    cases hcase : fs.shards.all Option.isSome with
    | false => rfl
    | true =>
        have hmem := List.all_eq_true.mp hcase _ (List.get_mem fs.shards i hi)
        rw [h] at hmem
        cases hmem
  rw [doReduce_shardFail fs f hall]
  exact ⟨rfl, rfl, fun g => by rw [doReduce_shardFail fs g hall]⟩

/-- C7: with `nMap = 0` and no pre-existing file at the output path, the run
succeeds and the output file exists and contains zero records. -/
theorem C7_zero_shards (f : String → List String → String) :
    doReduce { shards := [], outFile := none, outOpenOk := true } f
      = { fatal := false, outFile := some [] } := rfl

/-- C8: Scenario A — `nMap = 2`, shard 0 = [("a","1"),("b","2")],
shard 1 = [("a","3")], reduce = sum-as-text: the output record sequence is
[("a","4"),("b","2")]. -/
theorem C8_scenarioA :
    doReduce (cleanFS [[⟨"a", "1"⟩, ⟨"b", "2"⟩], [⟨"a", "3"⟩]] none) sumAsText
      = { fatal := false, outFile := some [⟨"a", "4"⟩, ⟨"b", "2"⟩] } := by
  decide

/-- C9: the result of a run is a deterministic function of the inputs even
though the in-memory group map is iterated in an unspecified order: any two
iteration orders (permutations of the grouped key set) produce equal results,
hence byte-identical output files on fresh targets. -/
theorem C9_deterministic_output (fs : FileSystem)
    (f : String → List String → String) (ks₁ ks₂ : List String)
    (h₁ : ks₁.Perm (mapKeys (buildKvs (allRecords fs))))
    (h₂ : ks₂.Perm (mapKeys (buildKvs (allRecords fs)))) :
    doReduceWithKeyOrder fs f ks₁ = doReduceWithKeyOrder fs f ks₂ ∧
    serialize ((doReduceWithKeyOrder fs f ks₁).outFile.getD [])
      = serialize ((doReduceWithKeyOrder fs f ks₂).outFile.getD []) := by
  have hsort := sortStrings_eq_of_perm (h₁.trans h₂.symm)
  have hmain : doReduceWithKeyOrder fs f ks₁ = doReduceWithKeyOrder fs f ks₂ := by
    simp only [doReduceWithKeyOrder, hsort]
  exact ⟨hmain, by rw [hmain]⟩

/-- C10: if all shards open but the output path cannot be opened, the task
aborts fatally with the output path unchanged, and the result does not depend
on the reduce function (it is never invoked). -/
theorem C10_output_open_failure (fs : FileSystem)
    (f : String → List String → String)
    (_hs : fs.shards.all Option.isSome = true) (ho : fs.outOpenOk = false) :
    (doReduce fs f).fatal = true ∧ (doReduce fs f).outFile = fs.outFile ∧
    ∀ g, doReduce fs g = doReduce fs f := by
  rw [doReduce_outFail fs f ho]
  exact ⟨rfl, rfl, fun g => by rw [doReduce_outFail fs g ho]⟩

/-! ## Concrete witnesses -/

/-- Witness for C2 at a concrete input: key "a" occurs in both shards. -/
theorem C2_reduce_called_once_witness :
    ∃ out, (doReduce (cleanFS [[⟨"a", "1"⟩, ⟨"b", "2"⟩], [⟨"a", "3"⟩]] none)
        sumAsText).outFile = some out ∧
      out.filter (fun kv => kv.key = "a") =
        [⟨"a", sumAsText "a"
          ((([[⟨"a", "1"⟩, ⟨"b", "2"⟩], [⟨"a", "3"⟩]] :
              List (List KeyValue)).flatten.filter
            (fun kv => kv.key = "a")).map (fun kv => kv.value))⟩] :=
  C2_reduce_called_once [[⟨"a", "1"⟩, ⟨"b", "2"⟩], [⟨"a", "3"⟩]] sumAsText "a"
    (by decide)

/-- Witness for C4 at a concrete input: a shard with one clean record, then a
decode error, then an unreachable record. -/
theorem C4_decode_failure_is_eof_witness :
    doReduce ⟨[] ++ some ([⟨"a", "1"⟩].map DecodeItem.ok ++ DecodeItem.err
        :: [DecodeItem.ok ⟨"b", "2"⟩]) :: [], none, true⟩ sumAsText
      = doReduce ⟨[] ++ some ([⟨"a", "1"⟩].map DecodeItem.ok) :: [], none,
          true⟩ sumAsText ∧
    (doReduce ⟨[] ++ some ([⟨"a", "1"⟩].map DecodeItem.ok ++ DecodeItem.err
        :: [DecodeItem.ok ⟨"b", "2"⟩]) :: [], none, true⟩ sumAsText).fatal
      = false :=
  C4_decode_failure_is_eof [] [] [⟨"a", "1"⟩] [DecodeItem.ok ⟨"b", "2"⟩] none
    sumAsText (by decide) (by decide)

/-- Witness for C5 at a concrete input with one nonempty shard. -/
theorem C5_append_not_idempotent_witness :
    (doReduce ⟨[some [DecodeItem.ok ⟨"a", "1"⟩]], none, true⟩
        sumAsText).outFile
      = some (emittedRecords ⟨[some [DecodeItem.ok ⟨"a", "1"⟩]], none, true⟩
          sumAsText) ∧
    (doReduce ⟨[some [DecodeItem.ok ⟨"a", "1"⟩]],
        (doReduce ⟨[some [DecodeItem.ok ⟨"a", "1"⟩]], none, true⟩
          sumAsText).outFile, true⟩ sumAsText).outFile
      = some (emittedRecords ⟨[some [DecodeItem.ok ⟨"a", "1"⟩]], none, true⟩
            sumAsText
          ++ emittedRecords ⟨[some [DecodeItem.ok ⟨"a", "1"⟩]], none, true⟩
            sumAsText) ∧
    (emittedRecords ⟨[some [DecodeItem.ok ⟨"a", "1"⟩]], none, true⟩ sumAsText
        ≠ [] →
      (doReduce ⟨[some [DecodeItem.ok ⟨"a", "1"⟩]],
          (doReduce ⟨[some [DecodeItem.ok ⟨"a", "1"⟩]], none, true⟩
            sumAsText).outFile, true⟩ sumAsText).outFile
        ≠ some (emittedRecords ⟨[some [DecodeItem.ok ⟨"a", "1"⟩]], none,
            true⟩ sumAsText)) :=
  C5_append_not_idempotent [some [DecodeItem.ok ⟨"a", "1"⟩]] sumAsText
    (by decide)

/-- Witness for C6 at a concrete input: the single shard cannot be opened. -/
theorem C6_shard_open_failure_witness :
    (doReduce ⟨[none], none, true⟩ sumAsText).fatal = true ∧
    (doReduce ⟨[none], none, true⟩ sumAsText).outFile
      = (⟨[none], none, true⟩ : FileSystem).outFile ∧
    ∀ g, doReduce ⟨[none], none, true⟩ g
      = doReduce ⟨[none], none, true⟩ sumAsText :=
  C6_shard_open_failure ⟨[none], none, true⟩ sumAsText 0 (by decide) rfl

/-- Witness for C9 at a concrete input: the two keys iterated in the two
possible orders. -/
theorem C9_deterministic_output_witness :
    doReduceWithKeyOrder (cleanFS [[⟨"b", "2"⟩, ⟨"a", "1"⟩]] none) sumAsText
        ["b", "a"]
      = doReduceWithKeyOrder (cleanFS [[⟨"b", "2"⟩, ⟨"a", "1"⟩]] none)
          sumAsText ["a", "b"] ∧
    serialize ((doReduceWithKeyOrder (cleanFS [[⟨"b", "2"⟩, ⟨"a", "1"⟩]] none)
        sumAsText ["b", "a"]).outFile.getD [])
      = serialize ((doReduceWithKeyOrder (cleanFS [[⟨"b", "2"⟩, ⟨"a", "1"⟩]]
          none) sumAsText ["a", "b"]).outFile.getD []) :=
  C9_deterministic_output (cleanFS [[⟨"b", "2"⟩, ⟨"a", "1"⟩]] none) sumAsText
    ["b", "a"] ["a", "b"] (by decide) (by decide)

/-- Witness for C10 at a concrete input: one openable empty shard, an
existing output file, and a failing output open. -/
theorem C10_output_open_failure_witness :
    (doReduce ⟨[some []], some [⟨"x", "1"⟩], false⟩ sumAsText).fatal = true ∧
    (doReduce ⟨[some []], some [⟨"x", "1"⟩], false⟩ sumAsText).outFile
      = (⟨[some []], some [⟨"x", "1"⟩], false⟩ : FileSystem).outFile ∧
    ∀ g, doReduce ⟨[some []], some [⟨"x", "1"⟩], false⟩ g
      = doReduce ⟨[some []], some [⟨"x", "1"⟩], false⟩ sumAsText :=
  C10_output_open_failure ⟨[some []], some [⟨"x", "1"⟩], false⟩ sumAsText
    (by decide) rfl
